import Mathlib

set_option maxHeartbeats 1000000
set_option maxRecDepth 10000

/-! Shallow embedding of the rx8010sj RTC driver (src/lib.rs).

The driver translates between a structured date-time value and the
peripheral's BCD register layout, and exposes start/stop control of the
oscillator via a control-register bit.  The pure codec functions
(`bcd2bin`, `bin2bcd`), the time mapper (`get_time_decode`,
`set_time_encode`) and the register-access loop (`write_registers`) are
translated directly from the Rust source.  The `datetime` crate and the
`embedded_hal` I2C transport are external to the repository; they are
modelled from the spec (see the doc comments of the corresponding
definitions). -/

/-- DEFAULT_ADDRESS constant from src/lib.rs: `0x64 >> 1`. -/
def DEFAULT_ADDRESS : Nat := 0x64 >>> 1

/-- REGISTER_CONTROL constant from src/lib.rs. -/
def REGISTER_CONTROL : Nat := 0x1F

/-- REGISTER_SEC constant from src/lib.rs. -/
def REGISTER_SEC : Nat := 0x10

/-- BIT_REGISTER_CONTROL_STOP constant from src/lib.rs. -/
def BIT_REGISTER_CONTROL_STOP : Nat := 0x40

/-- bcd2bin from src/lib.rs: `((bcd >> 4) & 0xF) * 10 + ((bcd) & 0xF)` on `u8`.
Bytes are represented as `Nat`; for inputs below 256 this is exactly the
`u8` computation (the result is at most 165, so no overflow occurs). -/
def bcd2bin (bcd : Nat) : Nat := ((bcd >>> 4) &&& 0xF) * 10 + (bcd &&& 0xF)

/-- bin2bcd from src/lib.rs: `(((bin) / 10) << 4) | ((bin) % 10)` on `u8`.
The `u8` left shift keeps only the low 8 bits, hence the `% 256`. -/
def bin2bcd (bin : Nat) : Nat := (((bin / 10) <<< 4) % 256) ||| (bin % 10)

/-- Modelled from the spec: the `datetime` crate's `Month` enumeration
(months January through December), used by the driver but not part of
the repository. -/
inductive Month : Type where
  | January
  | February
  | March
  | April
  | May
  | June
  | July
  | August
  | September
  | October
  | November
  | December
  deriving DecidableEq

/-- Modelled from the spec: the `datetime` crate's `Weekday` enumeration,
`0 = Sunday .. 6 = Saturday` per spec section 3. -/
inductive Weekday : Type where
  | Sunday
  | Monday
  | Tuesday
  | Wednesday
  | Thursday
  | Friday
  | Saturday
  deriving DecidableEq

/-- Modelled from the spec: the `datetime` crate's `LocalDate` value
(year, month, day-of-month).  The year is an `i64` and the day an `i8`
in the crate; both are represented as unbounded `Int` here. -/
structure LocalDate : Type where
  year : Int
  month : Month
  day : Int
  deriving DecidableEq

/-- Modelled from the spec: the `datetime` crate's `LocalTime` value
(hour, minute, second), each an `i8` in the crate, represented as `Int`. -/
structure LocalTime : Type where
  hour : Int
  minute : Int
  second : Int
  deriving DecidableEq

/-- Modelled from the spec: the `datetime` crate's `LocalDateTime`,
a pair of a `LocalDate` and a `LocalTime` (spec section 3,
Date-Time Value). -/
structure LocalDateTime : Type where
  date : LocalDate
  time : LocalTime
  deriving DecidableEq

/-- Modelled from the spec: `Month::from_zero`, mapping the raw 0-based
month index (0 = January .. 11 = December, spec section 6) to a month;
out-of-range indices are rejected. -/
def Month.from_zero (m : Int) : Option Month :=
  if m = 0 then some .January
  else if m = 1 then some .February
  else if m = 2 then some .March
  else if m = 3 then some .April
  else if m = 4 then some .May
  else if m = 5 then some .June
  else if m = 6 then some .July
  else if m = 7 then some .August
  else if m = 8 then some .September
  else if m = 9 then some .October
  else if m = 10 then some .November
  else if m = 11 then some .December
  else none

/-- Modelled from the spec: the 1-based month lookup used when converting
a day count back to a calendar date (1 = January .. 12 = December). -/
def Month.from_one (m : Int) : Option Month :=
  Month.from_zero (m - 1)

/-- Month as a 1-based number (January = 1 .. December = 12), used by the
calendar arithmetic. -/
def monthNat : Month → Nat
  | .January => 1
  | .February => 2
  | .March => 3
  | .April => 4
  | .May => 5
  | .June => 6
  | .July => 7
  | .August => 8
  | .September => 9
  | .October => 10
  | .November => 11
  | .December => 12

/-- month0 is the 0-based month index table written out in `set_time`
(src/lib.rs): January = 0 .. December = 11. -/
def month0 : Month → Nat
  | .January => 0
  | .February => 1
  | .March => 2
  | .April => 3
  | .May => 4
  | .June => 5
  | .July => 6
  | .August => 7
  | .September => 8
  | .October => 9
  | .November => 10
  | .December => 11

/-- weekday0 is the weekday index table written out in `set_time`
(src/lib.rs): Sunday = 0 .. Saturday = 6. -/
def weekday0 : Weekday → Nat
  | .Sunday => 0
  | .Monday => 1
  | .Tuesday => 2
  | .Wednesday => 3
  | .Thursday => 4
  | .Friday => 5
  | .Saturday => 6

/-- Modelled from the spec: proleptic-Gregorian leap-year rule used by the
`datetime` crate's calendar validation. -/
def isLeap (y : Int) : Bool :=
  y.emod 4 == 0 && (y.emod 100 != 0 || y.emod 400 == 0)

/-- Modelled from the spec: days in a month under the proleptic Gregorian
calendar, used to validate the day-of-month. -/
def daysInMonth (y : Int) : Month → Int
  | .January => 31
  | .February => if isLeap y then 29 else 28
  | .March => 31
  | .April => 30
  | .May => 31
  | .June => 30
  | .July => 31
  | .August => 31
  | .September => 30
  | .October => 31
  | .November => 30
  | .December => 31

/-- Modelled from the spec: days since 1970-01-01 of the proleptic
Gregorian date `y`-`m`-`d` (with `m` 1-based), the day counting that
underlies the `datetime` crate's date handling. -/
def daysFromCivil (y : Int) (m : Nat) (d : Int) : Int :=
  let y' := if m ≤ 2 then y - 1 else y
  let era := Int.fdiv y' 400
  let yoe := y' - era * 400
  let mp : Nat := (m + 9) % 12
  let doy : Int := (((153 * mp + 2) / 5 : Nat) : Int) + d - 1
  let doe := 365 * yoe + Int.fdiv yoe 4 - Int.fdiv yoe 100 + doy
  146097 * era + doe - 719468

/-- Modelled from the spec: the proleptic Gregorian date that lies `z`
days after 1970-01-01 (inverse of `daysFromCivil`). -/
def fromDays (z : Int) : LocalDate :=
  let z' := z + 719468
  let era := Int.fdiv z' 146097
  let doe := z' - era * 146097
  let yoe := Int.fdiv (doe - Int.fdiv doe 1460 + Int.fdiv doe 36524 - Int.fdiv doe 146096) 365
  let y := yoe + era * 400
  let doy := doe - (365 * yoe + Int.fdiv yoe 4 - Int.fdiv yoe 100)
  let mp := Int.fdiv (5 * doy + 2) 153
  let d := doy - Int.fdiv (153 * mp + 2) 5 + 1
  let m := mp + (if mp < 10 then 3 else -9)
  { year := if m ≤ 2 then y + 1 else y
    month := (Month.from_one m).getD Month.January
    day := d }

/-- Modelled from the spec: `LocalDate::ymd` builds a date from
year/month/day and fails when the day is out of range for the month
(spec section 4.3, calendar validation). -/
def LocalDate.ymd (y : Int) (m : Month) (d : Int) : Option LocalDate :=
  if 1 ≤ d ∧ d ≤ daysInMonth y m then some ⟨y, m, d⟩ else none

/-- Modelled from the spec: `LocalDate::yd` builds a date from a year and
a year-day; year-day 1 is January 1st, so year-day 0 (the fallback used
by `get_time`) is the day before January 1st of the given year. -/
def LocalDate.yd (y : Int) (yearday : Int) : Option LocalDate :=
  if 0 ≤ yearday ∧ yearday ≤ 366 then
    some (fromDays (daysFromCivil y 1 1 - 1 + yearday))
  else none

/-- Modelled from the spec: `LocalDate::weekday` derives the weekday from
the date itself (Sunday = 0 .. Saturday = 6; 1970-01-01 is a Thursday). -/
def LocalDate.weekday (date : LocalDate) : Weekday :=
  match ((daysFromCivil date.year (monthNat date.month) date.day + 4).emod 7).toNat with
  | 0 => .Sunday
  | 1 => .Monday
  | 2 => .Tuesday
  | 3 => .Wednesday
  | 4 => .Thursday
  | 5 => .Friday
  | _ => .Saturday

/-- Modelled from the spec: `LocalTime::hms` validates hour (0-23),
minute (0-59) and second (0-59) and fails otherwise (spec sections 3
and 4.3: an out-of-range component, e.g. hour = 24, is not a valid
time-of-day). -/
def LocalTime.hms (h m s : Int) : Option LocalTime :=
  if 0 ≤ h ∧ h ≤ 23 ∧ 0 ≤ m ∧ m ≤ 59 ∧ 0 ≤ s ∧ s ≤ 59 then
    some ⟨h, m, s⟩
  else none

/-- Modelled from the spec: `LocalTime::hm`, the seconds default to 0. -/
def LocalTime.hm (h m : Int) : Option LocalTime :=
  LocalTime.hms h m 0

/-- i8ofNat models Rust's `as i8` cast of a `u8` value: values 128-255
re-interpret as negative two's-complement numbers. -/
def i8ofNat (n : Nat) : Int :=
  if n % 256 < 128 then (n % 256 : Nat) else (n % 256 : Nat) - 256

/-- u8ofInt models Rust's `as u8` cast of a signed integer: the value
modulo 256. -/
def u8ofInt (x : Int) : Nat := (x.emod 256).toNat

/-- fallback_date is `LocalDate::yd(1970, 0).unwrap()` from `get_time`
(src/lib.rs line 69): the fixed date substituted when the decoded
year/month/day do not form a valid calendar date. -/
def fallback_date : LocalDate := (LocalDate.yd 1970 0).getD ⟨1970, Month.January, 1⟩

/-- get_time_decode is the pure decoding half of `get_time`
(src/lib.rs lines 53-75): BCD-decode the seven time registers, build the
date with a fixed fallback and the time with a midnight fallback. -/
def get_time_decode (time_registers : List Nat) : LocalDateTime :=
  let sec := bcd2bin (time_registers.getD 0 0)
  let min := bcd2bin (time_registers.getD 1 0)
  let hour := bcd2bin (time_registers.getD 2 0)
  let wday := bcd2bin (time_registers.getD 3 0)
  let day := bcd2bin (time_registers.getD 4 0)
  let month := bcd2bin (time_registers.getD 5 0)
  let year := bcd2bin (time_registers.getD 6 0)
  let date := (LocalDate.ymd (year : Int)
      ((Month.from_zero (i8ofNat month)).getD Month.January)
      (i8ofNat day)).getD fallback_date
  let time := (LocalTime.hms (i8ofNat hour) (i8ofNat min) (i8ofNat sec)).getD
      ((LocalTime.hm 0 0).getD ⟨0, 0, 0⟩)
  ⟨date, time⟩

/-- set_time_encode is the pure encoding half of `set_time`
(src/lib.rs lines 77-105): the seven register bytes written for a
date-time, in seconds-first order. -/
def set_time_encode (date_time : LocalDateTime) : List Nat :=
  let date := date_time.date
  let time := date_time.time
  [ bin2bcd (u8ofInt time.second)
  , bin2bcd (u8ofInt time.minute)
  , bin2bcd (u8ofInt time.hour)
  , bin2bcd (weekday0 date.weekday)
  , bin2bcd (u8ofInt date.day)
  , bin2bcd (month0 date.month)
  , bin2bcd (u8ofInt (date.year - 1900)) ]

/-- Modelled from the spec: the state of the I2C bus transport together
with the peripheral's register file (spec sections 2 and 4.1).  `regs`
maps each register address to its byte value, `schedule` is the
per-transaction outcome used to simulate transport failures (`none` =
the transaction succeeds, `some e` = it fails with bus error `e`; an
exhausted schedule means success), and `log` records every committed
single-register write in order. -/
structure BusState (E : Type) : Type where
  regs : Nat → Nat
  schedule : List (Option E)
  log : List (Nat × Nat)

/-- busTake pops the outcome of the next bus transaction from the
failure schedule. -/
def busTake {E : Type} (s : BusState E) : Option E × BusState E :=
  match s.schedule with
  | [] => (none, s)
  | o :: rest => (o, { s with schedule := rest })

/-- Modelled from the spec: `I2c::write(address, [reg, data])` as used by
`write_register` — one bus transaction that, on success, stores `data`
in register `reg` (addresses and data are bytes, hence the `% 256`). -/
def busWrite {E : Type} (reg data : Nat) (s : BusState E) :
    Except E Unit × BusState E :=
  match busTake s with
  | (some e, s') => (Except.error e, s')
  | (none, s') =>
    (Except.ok (),
     { s' with
       regs := fun r => if r = reg % 256 then data % 256 else s'.regs r
       log := s'.log ++ [(reg % 256, data % 256)] })

/-- Modelled from the spec: `I2c::write_read(address, [reg], buf)` as used
by `read_registers` — one bus transaction that, on success, reads `n`
consecutive registers starting at `reg`. -/
def busWriteRead {E : Type} (reg n : Nat) (s : BusState E) :
    Except E (List Nat) × BusState E :=
  match busTake s with
  | (some e, s') => (Except.error e, s')
  | (none, s') =>
    (Except.ok ((List.range n).map fun i => s'.regs ((reg + i) % 256)), s')

namespace Rx8010sj

variable {E : Type}

/-- read_registers from src/lib.rs (lines 132-136): a single
write-then-read transaction covering `n` bytes. -/
def read_registers (n reg : Nat) (s : BusState E) :
    Except E (List Nat) × BusState E :=
  busWriteRead reg n s

/-- read_register from src/lib.rs (lines 128-130): the length-1 case of
`read_registers`, mapped to its first byte. -/
def read_register (reg : Nat) (s : BusState E) : Except E Nat × BusState E :=
  match read_registers 1 reg s with
  | (Except.ok regs, s') => (Except.ok (regs.headD 0), s')
  | (Except.error e, s') => (Except.error e, s')

/-- write_register from src/lib.rs (lines 108-110):
`i2c.write(address, [reg, data])`. -/
def write_register (reg data : Nat) (s : BusState E) :
    Except E Unit × BusState E :=
  busWrite reg data s

/-- write_registers_aux is the loop body of `write_registers`
(src/lib.rs lines 112-126): the `i`-th byte is written with one
single-register write transaction at address `reg + i` (a `u8` sum),
stopping at the first bus error. -/
def write_registers_aux (reg : Nat) : Nat → List Nat → BusState E →
    Except E Unit × BusState E
  | _, [], s => (Except.ok (), s)
  | i, d :: rest, s =>
    match write_register ((reg + i) % 256) d s with
    | (Except.ok _, s') => write_registers_aux reg (i + 1) rest s'
    | (Except.error e, s') => (Except.error e, s')

/-- write_registers from src/lib.rs (lines 112-126): one single-register
write transaction per byte, register address incremented each time. -/
def write_registers (reg : Nat) (data : List Nat) (s : BusState E) :
    Except E Unit × BusState E :=
  write_registers_aux reg 0 data s

/-- is_stopped from src/lib.rs (lines 35-38): read the control register
and test the stop bit. -/
def is_stopped (s : BusState E) : Except E Bool × BusState E :=
  match read_register REGISTER_CONTROL s with
  | (Except.ok control_register, s') =>
    (Except.ok (decide (control_register &&& BIT_REGISTER_CONTROL_STOP > 0)), s')
  | (Except.error e, s') => (Except.error e, s')

/-- set_stopped from src/lib.rs (lines 40-51): read the control register,
set or clear the stop bit (bit 6) and write the result back.  In `u8`
arithmetic `!BIT_REGISTER_CONTROL_STOP` is `0xBF`. -/
def set_stopped (stopped : Bool) (s : BusState E) :
    Except E Unit × BusState E :=
  match read_register REGISTER_CONTROL s with
  | (Except.ok control_register, s') =>
    write_register REGISTER_CONTROL
      (if stopped then control_register ||| BIT_REGISTER_CONTROL_STOP
       else control_register &&& 0xBF) s'
  | (Except.error e, s') => (Except.error e, s')

/-- get_time from src/lib.rs (lines 53-75): read the 7-byte block at the
seconds register and decode it with `get_time_decode`. -/
def get_time (s : BusState E) : Except E LocalDateTime × BusState E :=
  match read_registers 7 REGISTER_SEC s with
  | (Except.ok time_registers, s') =>
    (Except.ok (get_time_decode time_registers), s')
  | (Except.error e, s') => (Except.error e, s')

/-- set_time from src/lib.rs (lines 77-105): encode the date-time with
`set_time_encode` and write the 7-byte block at the seconds register. -/
def set_time (date_time : LocalDateTime) (s : BusState E) :
    Except E Unit × BusState E :=
  write_registers REGISTER_SEC (set_time_encode date_time) s

end Rx8010sj

/-- blockLog lists the single-register write transactions committed when
the block `data` is written starting at address `a`: one entry per byte,
at consecutive addresses, in order. -/
def blockLog : Nat → List Nat → List (Nat × Nat)
  | _, [] => []
  | a, d :: rest => (a % 256, d % 256) :: blockLog (a + 1) rest

/-- blockRegs is the register file after the block `data` has been
written byte-by-byte starting at address `a`. -/
def blockRegs : Nat → List Nat → (Nat → Nat) → Nat → Nat
  | _, [], f => f
  | a, d :: rest, f =>
    blockRegs (a + 1) rest (fun r => if r = a % 256 then d % 256 else f r)

/-- bcd2bin never exceeds 165 (`0xF * 10 + 0xF`), for any input. -/
theorem bcd2bin_le (b : Nat) : bcd2bin b ≤ 165 := by
  unfold bcd2bin
  have h1 : (b >>> 4) &&& 0xF ≤ 0xF := Nat.and_le_right
  have h2 : b &&& 0xF ≤ 0xF := Nat.and_le_right
  omega

/-- LocalTime.hms rejects any triple whose components (after the `as i8`
cast of a value at most 165) are not a valid time-of-day. -/
theorem hms_invalid (h m s : Nat) (hh : h ≤ 165) (hm' : m ≤ 165) (hs' : s ≤ 165)
    (hbad : ¬ (h ≤ 23 ∧ m ≤ 59 ∧ s ≤ 59)) :
    LocalTime.hms (i8ofNat h) (i8ofNat m) (i8ofNat s) = none := by
  unfold LocalTime.hms i8ofNat
  split_ifs <;> first | rfl | (exfalso; omega)

/-- C10: the result of `get_time` decoding is independent of the weekday
register: two 7-byte blocks that differ only at index 3 decode to equal
date-times (the decoded weekday byte is never used; the weekday of the
result is derived from year/month/day by `LocalDate.weekday`). -/
theorem get_time_ignores_weekday_register (b0 b1 b2 x y b4 b5 b6 : Nat) :
    get_time_decode [b0, b1, b2, x, b4, b5, b6] =
      get_time_decode [b0, b1, b2, y, b4, b5, b6] := rfl

/-- C2 counterexample: the register block `[0x45, 0x30, 0x12, 0x03, 0x15,
0x02, 0x23]` does not decode to the date-time 2023-03-15 12:30:45 —
`get_time` passes the raw two-digit year 23 to the date constructor. -/
theorem get_time_example_not_year_2023 :
    get_time_decode [0x45, 0x30, 0x12, 0x03, 0x15, 0x02, 0x23] ≠
      ⟨⟨2023, Month.March, 15⟩, ⟨12, 30, 45⟩⟩ := by decide

/-- C2 amended: the register block `[0x45, 0x30, 0x12, 0x03, 0x15, 0x02,
0x23]` decodes to 12:30:45 on March 15 of year 23 (no century epoch is
added back), and the weekday derived from that date is Wednesday. -/
theorem get_time_example_decodes_year_23 :
    get_time_decode [0x45, 0x30, 0x12, 0x03, 0x15, 0x02, 0x23] =
      ⟨⟨23, Month.March, 15⟩, ⟨12, 30, 45⟩⟩ ∧
    (get_time_decode [0x45, 0x30, 0x12, 0x03, 0x15, 0x02, 0x23]).date.weekday =
      Weekday.Wednesday := by decide

/-- C1: evaluation at the failing input 1923-03-15 12:30:45 (a Thursday,
with year in 1900-1999 and all fields in range): encoding via `set_time`
and decoding via `get_time` yields year 23 instead of 1923, and the
derived weekday of the result is Wednesday instead of Thursday, so the
round trip does not reproduce the original date-time. -/
theorem set_get_roundtrip_year_weekday_bug :
    get_time_decode (set_time_encode ⟨⟨1923, Month.March, 15⟩, ⟨12, 30, 45⟩⟩) =
      ⟨⟨23, Month.March, 15⟩, ⟨12, 30, 45⟩⟩ ∧
    get_time_decode (set_time_encode ⟨⟨1923, Month.March, 15⟩, ⟨12, 30, 45⟩⟩) ≠
      ⟨⟨1923, Month.March, 15⟩, ⟨12, 30, 45⟩⟩ ∧
    LocalDate.weekday ⟨1923, Month.March, 15⟩ = Weekday.Thursday ∧
    LocalDate.weekday ⟨23, Month.March, 15⟩ = Weekday.Wednesday := by decide

/-- C3 counterexample: for the block with day byte 0x31, month byte 0x01
(February) and year byte 0x23, the decoded day is invalid, and `get_time`
returns the fixed fallback date 1969-12-31 — not day 0 of the implied
year 23 (which would be `LocalDate.yd 23 0 = 0022-12-31`). -/
theorem get_time_fallback_not_implied_year :
    get_time_decode [0, 0, 0, 0, 0x31, 0x01, 0x23] =
      ⟨⟨1969, Month.December, 31⟩, ⟨0, 0, 0⟩⟩ ∧
    LocalDate.yd 23 0 = some ⟨22, Month.December, 31⟩ ∧
    (get_time_decode [0, 0, 0, 0, 0x31, 0x01, 0x23]).date ≠ ⟨22, Month.December, 31⟩ ∧
    (get_time_decode [0, 0, 0, 0, 0x31, 0x01, 0x23]).date.year ≠ 23 := by decide

/-- C3 amended: whenever the decoded day does not form a valid calendar
date with the decoded month (after substituting January for an
out-of-range month index) and the decoded year, `get_time` does not fail
and substitutes the fixed fallback date `LocalDate.yd 1970 0` — day 0 of
year 1970, i.e. 1969-12-31 — regardless of the decoded year byte. -/
theorem get_time_invalid_date_fallback (b0 b1 b2 b3 b4 b5 b6 : Nat)
    (hbad : LocalDate.ymd ((bcd2bin b6 : Nat) : Int)
        ((Month.from_zero (i8ofNat (bcd2bin b5))).getD Month.January)
        (i8ofNat (bcd2bin b4)) = none) :
    (get_time_decode [b0, b1, b2, b3, b4, b5, b6]).date = fallback_date ∧
    fallback_date = ⟨1969, Month.December, 31⟩ := by
  constructor
  · show (LocalDate.ymd ((bcd2bin b6 : Nat) : Int)
        ((Month.from_zero (i8ofNat (bcd2bin b5))).getD Month.January)
        (i8ofNat (bcd2bin b4))).getD fallback_date = fallback_date
    rw [hbad]
    rfl
  · decide

/-- C3 witness: the amended fallback theorem applied at the concrete
block with an impossible day (February 31st of year 23). -/
theorem get_time_invalid_date_fallback_witness :
    LocalDate.ymd ((bcd2bin 0x23 : Nat) : Int)
        ((Month.from_zero (i8ofNat (bcd2bin 0x01))).getD Month.January)
        (i8ofNat (bcd2bin 0x31)) = none ∧
    ((get_time_decode [0, 0, 0, 0, 0x31, 0x01, 0x23]).date = fallback_date ∧
      fallback_date = ⟨1969, Month.December, 31⟩) :=
  ⟨by decide, get_time_invalid_date_fallback 0 0 0 0 0x31 0x01 0x23 (by decide)⟩

/-- C5: whenever the decoded hour, minute or second is not a valid
time-of-day (for example hour = 24), `get_time` does not fail and
substitutes the fallback time midnight 00:00:00. -/
theorem get_time_invalid_time_midnight (b0 b1 b2 b3 b4 b5 b6 : Nat)
    (hbad : ¬ (bcd2bin b2 ≤ 23 ∧ bcd2bin b1 ≤ 59 ∧ bcd2bin b0 ≤ 59)) :
    (get_time_decode [b0, b1, b2, b3, b4, b5, b6]).time = ⟨0, 0, 0⟩ := by
  show (LocalTime.hms (i8ofNat (bcd2bin b2)) (i8ofNat (bcd2bin b1))
      (i8ofNat (bcd2bin b0))).getD ((LocalTime.hm 0 0).getD ⟨0, 0, 0⟩) = ⟨0, 0, 0⟩
  rw [hms_invalid _ _ _ (bcd2bin_le b2) (bcd2bin_le b1) (bcd2bin_le b0) hbad]
  rfl

/-- C5 witness: the midnight-fallback theorem applied at the concrete
block with hour byte 0x24 (decoded hour 24, out of range). -/
theorem get_time_invalid_time_midnight_witness :
    ¬ (bcd2bin 0x24 ≤ 23 ∧ bcd2bin 0x30 ≤ 59 ∧ bcd2bin 0x45 ≤ 59) ∧
    (get_time_decode [0x45, 0x30, 0x24, 0x03, 0x15, 0x02, 0x23]).time = ⟨0, 0, 0⟩ :=
  ⟨by decide, get_time_invalid_time_midnight 0x45 0x30 0x24 0x03 0x15 0x02 0x23 (by decide)⟩

/-- C4 counterexample: for a date in November, the month register byte
written by `set_time` is `bin2bcd 10 = 0x10 = 16`, not the raw binary
value 10 (0x0A). -/
theorem set_time_november_byte_not_raw :
    (set_time_encode ⟨⟨1970, Month.November, 5⟩, ⟨0, 0, 0⟩⟩).getD 5 0 = 16 ∧
    (set_time_encode ⟨⟨1970, Month.November, 5⟩, ⟨0, 0, 0⟩⟩).getD 5 0 ≠ 10 := by decide

/-- C4 amended: `set_time` stores the weekday and month registers as
BCD-encodings of the 0-based indices (Sunday = 0 .. Saturday = 6,
January = 0 .. December = 11).  The weekday BCD coincides with the raw
index (it is at most 6), as does the month BCD through October; for
November and December the byte written is 0x10 (16) and 0x11 (17)
respectively, not the raw 10 or 11. -/
theorem set_time_month_weekday_bcd (dt : LocalDateTime) :
    (set_time_encode dt).getD 5 0 = bin2bcd (month0 dt.date.month) ∧
    (set_time_encode dt).getD 3 0 = weekday0 dt.date.weekday ∧
    (dt.date.month = Month.November → (set_time_encode dt).getD 5 0 = 16) ∧
    (dt.date.month = Month.December → (set_time_encode dt).getD 5 0 = 17) := by
  refine ⟨rfl, ?_, ?_, ?_⟩
  · show bin2bcd (weekday0 dt.date.weekday) = weekday0 dt.date.weekday
    generalize dt.date.weekday = w
    cases w <;> rfl
  · intro h
    show bin2bcd (month0 dt.date.month) = 16
    rw [h]
    rfl
  · intro h
    show bin2bcd (month0 dt.date.month) = 17
    rw [h]
    rfl

/-- C4 witness: the amended encoding theorem applied at a concrete
December date. -/
theorem set_time_month_weekday_bcd_witness :
    (set_time_encode ⟨⟨1971, Month.December, 25⟩, ⟨1, 2, 3⟩⟩).getD 5 0 = 17 :=
  (set_time_month_weekday_bcd ⟨⟨1971, Month.December, 25⟩, ⟨1, 2, 3⟩⟩).2.2.2 rfl

/-- C9: the codec functions are mutually inverse on their valid ranges:
`bin2bcd (bcd2bin b) = b` for every byte whose nibbles are both at most
9, and `bcd2bin (bin2bcd v) = v` for every value 0-99. -/
theorem bcd_bin_inverse_on_valid_ranges :
    (∀ b < 256, b >>> 4 ≤ 9 → b &&& 0xF ≤ 9 → bin2bcd (bcd2bin b) = b) ∧
    (∀ v ≤ 99, bcd2bin (bin2bcd v) = v) := by decide

/-- C9 witness: the inverse laws applied at the byte 0x59 and the value
59. -/
theorem bcd_bin_inverse_on_valid_ranges_witness :
    bin2bcd (bcd2bin 0x59) = 0x59 ∧ bcd2bin (bin2bcd 59) = 59 :=
  ⟨bcd_bin_inverse_on_valid_ranges.1 0x59 (by decide) (by decide) (by decide),
   bcd_bin_inverse_on_valid_ranges.2 59 (by decide)⟩

/-- Bit 64 = 2^6 has no bit set other than bit 6. -/
theorem testBit64_of_ne (k : Nat) (hk : k ≠ 6) : Nat.testBit 64 k = false := by
  have h : (64 : Nat) = 2 ^ 6 := rfl
  rw [h]
  exact Nat.testBit_two_pow_of_ne (fun he => hk he.symm)

/-- Setting the stop bit with `||| 64` leaves every other bit unchanged. -/
theorem or64_testBit (c k : Nat) (hk : k ≠ 6) :
    (c ||| 64).testBit k = c.testBit k := by
  rw [Nat.testBit_or, testBit64_of_ne k hk, Bool.or_false]

/-- Clearing the stop bit with `&&& 0xBF` leaves every other bit of a byte
unchanged. -/
theorem and191_testBit (c k : Nat) (hc : c < 256) (hk : k ≠ 6) :
    (c &&& 191).testBit k = c.testBit k := by
  rcases Nat.lt_or_ge k 8 with h8 | h8
  · rw [Nat.testBit_and]
    have h191 : Nat.testBit 191 k = true := by
      interval_cases k <;> first | rfl | (exact absurd rfl hk)
    rw [h191, Bool.and_true]
  · have h256 : (256 : Nat) ≤ 2 ^ k := by
      calc (256 : Nat) = 2 ^ 8 := rfl
        _ ≤ 2 ^ k := Nat.pow_le_pow_right (by omega) h8
    have hc2 : c < 2 ^ k := lt_of_lt_of_le hc h256
    rw [Nat.testBit_lt_two_pow hc2,
      Nat.testBit_lt_two_pow (lt_of_le_of_lt Nat.and_le_left hc2)]

/-- C6: with a healthy bus, `set_stopped s` writes back to the control
register the byte read from it with bit 6 set when `s` is true and
cleared when `s` is false, agreeing with it on every other bit; no other
register changes; and `is_stopped` returns exactly the value of bit 6 of
the control-register byte read. -/
theorem set_stopped_bit6_frame {E : Type} (s : BusState E) (stopped : Bool)
    (hs : s.schedule = []) (hb : s.regs REGISTER_CONTROL < 256) :
    (Rx8010sj.set_stopped stopped s).1 = Except.ok () ∧
    ((Rx8010sj.set_stopped stopped s).2.regs REGISTER_CONTROL).testBit 6 = stopped ∧
    (∀ k, k ≠ 6 →
      ((Rx8010sj.set_stopped stopped s).2.regs REGISTER_CONTROL).testBit k =
        (s.regs REGISTER_CONTROL).testBit k) ∧
    (∀ r, r ≠ REGISTER_CONTROL → (Rx8010sj.set_stopped stopped s).2.regs r = s.regs r) ∧
    (Rx8010sj.is_stopped s).1 = Except.ok ((s.regs REGISTER_CONTROL).testBit 6) := by
  obtain ⟨regs, sched, log⟩ := s
  dsimp only at hs hb ⊢
  subst hs
  have hor8 : regs 31 ||| 64 < 2 ^ 8 := Nat.or_lt_two_pow hb (by norm_num)
  have hor : regs 31 ||| 64 < 256 := hor8
  have hand : regs 31 &&& 191 < 256 := lt_of_le_of_lt Nat.and_le_left hb
  refine ⟨rfl, ?_, ?_, ?_, ?_⟩
  · cases stopped
    · show ((regs 31 &&& 191) % 256).testBit 6 = false
      rw [Nat.mod_eq_of_lt hand, Nat.testBit_and,
        (show Nat.testBit 191 6 = false from rfl), Bool.and_false]
    · show ((regs 31 ||| 64) % 256).testBit 6 = true
      rw [Nat.mod_eq_of_lt hor, Nat.testBit_or,
        (show Nat.testBit 64 6 = true from rfl), Bool.or_true]
  · intro k hk
    cases stopped
    · show ((regs 31 &&& 191) % 256).testBit k = (regs 31).testBit k
      rw [Nat.mod_eq_of_lt hand]
      exact and191_testBit (regs 31) k hb hk
    · show ((regs 31 ||| 64) % 256).testBit k = (regs 31).testBit k
      rw [Nat.mod_eq_of_lt hor]
      exact or64_testBit (regs 31) k hk
  · intro r hr
    show (if r = 31 then
        (if stopped then regs 31 ||| 64 else regs 31 &&& 191) % 256
      else regs r) = regs r
    exact if_neg hr
  · show Except.ok (decide (0 < regs 31 &&& 2 ^ 6)) =
      Except.ok ((regs 31).testBit 6)
    rw [Nat.and_two_pow]
    cases htb : (regs 31).testBit 6 <;> rfl

/-- demoBus is a concrete healthy bus state whose control register holds
0xAB (bit 6 clear, several other bits set). -/
def demoBus : BusState Unit :=
  { regs := fun _ => 0xAB, schedule := [], log := [] }

/-- C6 witness: the control-bit theorem applied to the concrete bus state
`demoBus` with `stopped = true`. -/
theorem set_stopped_bit6_frame_witness :
    (Rx8010sj.set_stopped true demoBus).1 = Except.ok () ∧
    ((Rx8010sj.set_stopped true demoBus).2.regs REGISTER_CONTROL).testBit 6 = true ∧
    (∀ k, k ≠ 6 →
      ((Rx8010sj.set_stopped true demoBus).2.regs REGISTER_CONTROL).testBit k =
        (demoBus.regs REGISTER_CONTROL).testBit k) ∧
    (∀ r, r ≠ REGISTER_CONTROL →
      (Rx8010sj.set_stopped true demoBus).2.regs r = demoBus.regs r) ∧
    (Rx8010sj.is_stopped demoBus).1 =
      Except.ok ((demoBus.regs REGISTER_CONTROL).testBit 6) :=
  set_stopped_bit6_frame demoBus true rfl (by decide)

/-- C7: if either leg of `set_stopped`'s read-modify-write fails with bus
error `e`, `set_stopped` returns exactly `Except.error e`, no register is
modified, no write transaction is committed (the log is unchanged), and
no bus transaction beyond the failing one is attempted. -/
theorem set_stopped_error_passthrough {E : Type} (s : BusState E) (stopped : Bool)
    (e : E) (rest : List (Option E))
    (h : s.schedule = some e :: rest ∨ s.schedule = none :: some e :: rest) :
    (Rx8010sj.set_stopped stopped s).1 = Except.error e ∧
    (Rx8010sj.set_stopped stopped s).2.regs = s.regs ∧
    (Rx8010sj.set_stopped stopped s).2.log = s.log ∧
    (Rx8010sj.set_stopped stopped s).2.schedule = rest := by
  obtain ⟨regs, sched, log⟩ := s
  dsimp only at h ⊢
  rcases h with h | h
  · subst h
    exact ⟨rfl, rfl, rfl, rfl⟩
  · subst h
    exact ⟨rfl, rfl, rfl, rfl⟩

/-- failBus is a concrete bus state whose first transaction is scheduled
to fail with bus error 5. -/
def failBus : BusState Nat :=
  { regs := fun _ => 0, schedule := [some 5], log := [] }

/-- C7 witness: the error-passthrough theorem applied to the concrete bus
state `failBus`, whose read leg fails with error 5. -/
theorem set_stopped_error_passthrough_witness :
    (Rx8010sj.set_stopped true failBus).1 = Except.error 5 ∧
    (Rx8010sj.set_stopped true failBus).2.regs = failBus.regs ∧
    (Rx8010sj.set_stopped true failBus).2.log = failBus.log ∧
    (Rx8010sj.set_stopped true failBus).2.schedule = [] :=
  set_stopped_error_passthrough failBus true 5 [] (Or.inl rfl)

/-- blockRegs written out pointwise: when the block does not wrap around
the 8-bit address space, register `r` holds the byte at offset `r - a`
if `r` lies inside the written window and is untouched otherwise. -/
theorem blockRegs_eq (data : List Nat) : ∀ (a : Nat) (f : Nat → Nat) (r : Nat),
    a + data.length ≤ 256 →
    blockRegs a data f r =
      if a ≤ r ∧ r < a + data.length then data.getD (r - a) 0 % 256 else f r := by
  induction data with
  | nil =>
    intro a f r hb
    rw [blockRegs]
    exact (if_neg (by simp)).symm
  | cons d ds ih =>
    intro a f r hb
    simp only [List.length_cons] at hb ⊢
    rw [blockRegs]
    rw [ih (a + 1) _ r (by omega)]
    have ha : a % 256 = a := Nat.mod_eq_of_lt (by omega)
    by_cases h1 : a + 1 ≤ r ∧ r < a + 1 + ds.length
    · rw [if_pos h1, if_pos (by omega)]
      have hidx : r - a = (r - (a + 1)) + 1 := by omega
      rw [hidx, List.getD_cons_succ]
    · rw [if_neg h1]
      by_cases h2 : r = a
      · subst h2
        rw [ha, if_pos rfl, if_pos (by omega)]
        simp
      · rw [ha, if_neg h2, if_neg (by omega)]

/-- blockLog written out as a range map: one committed write per byte, at
consecutive addresses starting at `a`, in order. -/
theorem blockLog_eq (data : List Nat) : ∀ a : Nat, a + data.length ≤ 256 →
    blockLog a data =
      (List.range data.length).map fun j => (a + j, data.getD j 0 % 256) := by
  induction data with
  | nil => intro a hb; rfl
  | cons d ds ih =>
    intro a hb
    simp only [List.length_cons] at hb ⊢
    rw [blockLog, ih (a + 1) (by omega)]
    rw [Nat.mod_eq_of_lt (by omega : a < 256)]
    rw [List.range_succ_eq_map, List.map_cons, List.map_map]
    congr 1
    apply List.map_congr_left
    intro j hj
    simp only [Function.comp_apply, List.getD_cons_succ, Prod.mk.injEq]
    exact ⟨by omega, trivial⟩

/-- getD on a take: inside the taken part, indexing is unchanged. -/
theorem getD_take (l : List Nat) : ∀ (n j : Nat), j < n →
    (l.take n).getD j 0 = l.getD j 0 := by
  induction l with
  | nil => intro n j h; simp
  | cons d ds ih =>
    intro n j h
    cases n with
    | zero => omega
    | succ n' =>
      cases j with
      | zero => rfl
      | succ j' =>
        show (ds.take n').getD j' 0 = ds.getD j' 0
        exact ih n' j' (by omega)

/-- write_registers_aux with enough healthy transactions scheduled before
the next failure writes the whole block and leaves the remaining
schedule untouched. -/
theorem write_registers_aux_ok {E : Type} (reg : Nat) (data : List Nat) :
    ∀ (i k : Nat) (e : E) (rest : List (Option E)) (s : BusState E),
    s.schedule = List.replicate k none ++ some e :: rest →
    data.length ≤ k →
    reg + i + data.length ≤ 256 →
    Rx8010sj.write_registers_aux reg i data s =
      (Except.ok (),
       { regs := blockRegs (reg + i) data s.regs
         schedule := List.replicate (k - data.length) none ++ some e :: rest
         log := s.log ++ blockLog (reg + i) data }) := by
  induction data with
  | nil =>
    intro i k e rest s hs hk hb
    obtain ⟨regs, sched, log⟩ := s
    dsimp only at hs ⊢
    subst hs
    show (Except.ok (),
        (⟨regs, List.replicate k none ++ some e :: rest, log⟩ : BusState E)) = _
    simp [blockRegs, blockLog]
  | cons d ds ih =>
    intro i k e rest s hs hk hb
    simp only [List.length_cons] at hk hb
    cases k with
    | zero => exact absurd hk (by omega)
    | succ k' =>
      obtain ⟨regs, sched, log⟩ := s
      dsimp only at hs ⊢
      rw [List.replicate_succ, List.cons_append] at hs
      subst hs
      have hmod : (reg + i) % 256 = reg + i := Nat.mod_eq_of_lt (by omega)
      have hstep : Rx8010sj.write_registers_aux reg i (d :: ds)
          (⟨regs, none :: (List.replicate k' none ++ some e :: rest), log⟩ : BusState E) =
        Rx8010sj.write_registers_aux reg (i + 1) ds
          ⟨fun r => if r = (reg + i) % 256 % 256 then d % 256 else regs r,
           List.replicate k' none ++ some e :: rest,
           log ++ [((reg + i) % 256 % 256, d % 256)]⟩ := rfl
      rw [hmod, hmod] at hstep
      rw [hstep]
      rw [ih (i + 1) k' e rest _ rfl (by omega) (by omega)]
      simp [blockRegs, blockLog, Nat.succ_sub_succ, List.append_assoc, hmod, Nat.add_assoc]

/-- write_registers_aux with the `k`-th scheduled transaction failing
returns that bus error after committing exactly the first `k` bytes. -/
theorem write_registers_aux_err {E : Type} (reg : Nat) (data : List Nat) :
    ∀ (i k : Nat) (e : E) (rest : List (Option E)) (s : BusState E),
    s.schedule = List.replicate k none ++ some e :: rest →
    k < data.length →
    reg + i + data.length ≤ 256 →
    Rx8010sj.write_registers_aux reg i data s =
      (Except.error e,
       { regs := blockRegs (reg + i) (data.take k) s.regs
         schedule := rest
         log := s.log ++ blockLog (reg + i) (data.take k) }) := by
  induction data with
  | nil =>
    intro i k e rest s hs hk hb
    rw [List.length_nil] at hk
    exact absurd hk (by omega)
  | cons d ds ih =>
    intro i k e rest s hs hk hb
    simp only [List.length_cons] at hk hb
    cases k with
    | zero =>
      obtain ⟨regs, sched, log⟩ := s
      dsimp only at hs ⊢
      simp only [List.replicate, List.nil_append] at hs
      subst hs
      show (Except.error e, (⟨regs, rest, log⟩ : BusState E)) = _
      simp [blockRegs, blockLog]
    | succ k' =>
      obtain ⟨regs, sched, log⟩ := s
      dsimp only at hs ⊢
      rw [List.replicate_succ, List.cons_append] at hs
      subst hs
      have hmod : (reg + i) % 256 = reg + i := Nat.mod_eq_of_lt (by omega)
      have hstep : Rx8010sj.write_registers_aux reg i (d :: ds)
          (⟨regs, none :: (List.replicate k' none ++ some e :: rest), log⟩ : BusState E) =
        Rx8010sj.write_registers_aux reg (i + 1) ds
          ⟨fun r => if r = (reg + i) % 256 % 256 then d % 256 else regs r,
           List.replicate k' none ++ some e :: rest,
           log ++ [((reg + i) % 256 % 256, d % 256)]⟩ := rfl
      rw [hmod, hmod] at hstep
      rw [hstep]
      rw [ih (i + 1) k' e rest _ rfl (by omega) (by omega)]
      simp [blockRegs, blockLog, List.take_succ_cons, List.append_assoc, hmod, Nat.add_assoc]

/-- C8: `write_registers` issues one single-register write transaction
per byte, at consecutive addresses `reg, reg+1, ...` in that order (the
committed-write log records exactly those transactions).  If the
transaction for index `i` is the first to fail, the bus error is
returned and exactly the registers `reg .. reg+i-1` hold the new bytes —
only a strict prefix of the block is updated; if no transaction fails,
every byte of the block is stored at its address. -/
theorem write_registers_per_byte {E : Type} (s : BusState E) (reg : Nat)
    (data : List Nat) (i : Nat) (e : E) (rest : List (Option E))
    (hb : reg + data.length ≤ 256)
    (hs : s.schedule = List.replicate i none ++ some e :: rest) :
    (i < data.length →
      Rx8010sj.write_registers reg data s =
        (Except.error e,
         { regs := fun r =>
             if reg ≤ r ∧ r < reg + i then data.getD (r - reg) 0 % 256 else s.regs r
           schedule := rest
           log := s.log ++ (List.range i).map fun j => (reg + j, data.getD j 0 % 256) })) ∧
    (data.length ≤ i →
      Rx8010sj.write_registers reg data s =
        (Except.ok (),
         { regs := fun r =>
             if reg ≤ r ∧ r < reg + data.length then data.getD (r - reg) 0 % 256
             else s.regs r
           schedule := List.replicate (i - data.length) none ++ some e :: rest
           log := s.log ++ (List.range data.length).map fun j =>
             (reg + j, data.getD j 0 % 256) })) := by
  constructor
  · intro hi
    have h := write_registers_aux_err reg data 0 i e rest s hs hi (by omega)
    simp only [Nat.add_zero] at h
    have hlen : (data.take i).length = i := by rw [List.length_take]; omega
    have hregs : blockRegs reg (data.take i) s.regs = fun r =>
        if reg ≤ r ∧ r < reg + i then data.getD (r - reg) 0 % 256 else s.regs r := by
      funext r
      rw [blockRegs_eq (data.take i) reg s.regs r (by rw [hlen]; omega), hlen]
      by_cases hcase : reg ≤ r ∧ r < reg + i
      · rw [if_pos hcase, if_pos hcase, getD_take data i (r - reg) (by omega)]
      · rw [if_neg hcase, if_neg hcase]
    have hlog : blockLog reg (data.take i) =
        (List.range i).map fun j => (reg + j, data.getD j 0 % 256) := by
      rw [blockLog_eq (data.take i) reg (by rw [hlen]; omega), hlen]
      apply List.map_congr_left
      intro j hj
      rw [List.mem_range] at hj
      rw [getD_take data i j hj]
    unfold Rx8010sj.write_registers
    rw [h, hregs, hlog]
  · intro hi
    have h := write_registers_aux_ok reg data 0 i e rest s hs hi (by omega)
    simp only [Nat.add_zero] at h
    have hregs : blockRegs reg data s.regs = fun r =>
        if reg ≤ r ∧ r < reg + data.length then data.getD (r - reg) 0 % 256
        else s.regs r := by
      funext r
      rw [blockRegs_eq data reg s.regs r hb]
    have hlog := blockLog_eq data reg hb
    unfold Rx8010sj.write_registers
    rw [h, hregs, hlog]

/-- haltBus is a concrete bus state whose second transaction is scheduled
to fail with bus error 9. -/
def haltBus : BusState Nat :=
  { regs := fun _ => 0, schedule := [none, some 9], log := [] }

/-- C8 witness: the per-byte write theorem applied to a concrete 3-byte
block written at the seconds register over `haltBus`, whose second
transaction fails: only the first byte is committed. -/
theorem write_registers_per_byte_witness :
    (1 < ([17, 34, 51] : List Nat).length →
      Rx8010sj.write_registers 16 [17, 34, 51] haltBus =
        (Except.error 9,
         { regs := fun r =>
             if 16 ≤ r ∧ r < 16 + 1 then [17, 34, 51].getD (r - 16) 0 % 256
             else haltBus.regs r
           schedule := []
           log := haltBus.log ++ (List.range 1).map fun j =>
             (16 + j, [17, 34, 51].getD j 0 % 256) })) ∧
    (([17, 34, 51] : List Nat).length ≤ 1 →
      Rx8010sj.write_registers 16 [17, 34, 51] haltBus =
        (Except.ok (),
         { regs := fun r =>
             if 16 ≤ r ∧ r < 16 + ([17, 34, 51] : List Nat).length then
               [17, 34, 51].getD (r - 16) 0 % 256
             else haltBus.regs r
           schedule := List.replicate (1 - ([17, 34, 51] : List Nat).length) none ++
             some 9 :: []
           log := haltBus.log ++ (List.range ([17, 34, 51] : List Nat).length).map fun j =>
             (16 + j, [17, 34, 51].getD j 0 % 256) })) :=
  write_registers_per_byte haltBus 16 [17, 34, 51] 1 9 [] (by decide) rfl
